import Mathlib

/-!
A verification development of the search-index document-assembly stage of
labrinth (`src/search/indexing/local_import.rs`): the owner-resolution rule of
`get_all_ids` and the per-triple document assembly of `index_local`, modelled
shallowly. The records that the Rust code loads from the database are explicit
Lean structures, the two batch-load results are lookup functions, and the
external collaborators whose code lives outside this file's source (the SPDX
license registry, the legacy side mapper, the legacy project-type derivation,
`serde_json::to_value`) are explicit parameters or registry data.
-/

namespace Labrinth

/-- Serialized JSON values as they occur in this indexer: scalar values and
arrays of enum-value strings (the only array shape `serialize_internal`
produces for the version fields the indexer handles). -/
inductive Json where
  | str (s : String)
  | num (n : Int)
  | jbool (b : Bool)
  | arr (elems : List String)
  | null
deriving DecidableEq

/-- Models `serde_json::Value::as_str`: `some` exactly on strings. -/
def Json.as_str : Json → Option String
  | .str s => some s
  | _ => none

/-- Models `crate::database::models::version_item::VersionFieldValue`: the
typed value of a version-scoped loader field. -/
inductive VersionFieldValue where
  | integer (i : Int)
  | text (s : String)
  | boolean (b : Bool)
  | enumeration (v : String)
  | array_enumeration (vs : List String)
deriving DecidableEq

/-- Models `VersionFieldValue::serialize_internal`: the serialized JSON form
of a typed version-field value. -/
def VersionFieldValue.serialize_internal : VersionFieldValue → Json
  | .integer i => .num i
  | .text s => .str s
  | .boolean b => .jbool b
  | .enumeration v => .str v
  | .array_enumeration vs => .arr vs

/-- Models a `VersionField`: a named, typed, version-scoped field. -/
structure VersionField where
  field_name : String
  value : VersionFieldValue
deriving DecidableEq

/-- Models `chrono::DateTime<Utc>` by its epoch-second value; the only
observation the indexer makes of a date is `.timestamp()`. -/
structure DateTime where
  secs : Int
deriving DecidableEq

/-- Models `DateTime::timestamp`: the epoch seconds of the date. -/
def DateTime.timestamp (d : DateTime) : Int := d.secs

/-- Models a project gallery item as used by `index_local` (an image URL and
its featured flag, plus pass-through metadata). -/
structure GalleryItem where
  image_url : String
  featured : Bool
  item_name : Option String
  description : Option String
  created : DateTime
  ordering : Int
deriving DecidableEq

/-- Models `crate::database::models::project_item::Project` (the `inner`
record of a loaded project), restricted to the fields `index_local` reads. -/
structure Project where
  id : Nat
  team_id : Nat
  organization_id : Option Nat
  name : String
  summary : String
  downloads : Int
  follows : Int
  icon_url : Option String
  license_url : Option String
  license : String
  slug : Option String
  status : String
  requested_status : Option String
  approved : Option DateTime
  published : DateTime
  updated : DateTime
  queued : Option DateTime
  color : Option Nat
  monetization_status : String
deriving DecidableEq

/-- Models `project_item::QueryProject`: a hydrated project as returned by
`Project::get_many_ids`. -/
structure QueryProject where
  inner : Project
  categories : List String
  additional_categories : List String
  versions : List Nat
  project_types : List String
  games : List String
  urls : List (String × String)
  gallery_items : List GalleryItem
  thread_id : Nat
deriving DecidableEq

/-- Models `crate::database::models::version_item::Version` (the `inner`
record of a loaded version), restricted to the fields `index_local` reads. -/
structure Version where
  id : Nat
  project_id : Nat
deriving DecidableEq

/-- Models `version_item::QueryVersion`: a hydrated version as returned by
`Version::get_many`. -/
structure QueryVersion where
  inner : Version
  loaders : List String
  project_types : List String
  version_fields : List VersionField
deriving DecidableEq

/-- Models `crate::models::v2::projects::LegacySideType` (declared outside
src/): the legacy client/server side classification. -/
inductive LegacySideType where
  | required
  | optional
  | unsupported
  | unknown
deriving DecidableEq

/-- The generic loader-field map of a document: field name to the list of
serialized values (models `HashMap<String, Vec<serde_json::Value>>` as an
association list; lookups are by first matching key). -/
abbrev LoaderFields := List (String × List Json)

/-- The raw field map handed to the legacy side mapper (models
`HashMap<String, serde_json::Value>` as an association list). -/
abbrev RawLoaderFields := List (String × Json)

/-- Map lookup on a `LoaderFields` association list (models `HashMap::get`). -/
def lfGet (m : LoaderFields) (k : String) : Option (List Json) :=
  (m.find? (fun p => p.1 == k)).map (fun p => p.2)

/-- Key-presence test on `LoaderFields` (models `HashMap::contains_key`). -/
def lfContains (m : LoaderFields) (k : String) : Bool :=
  (m.find? (fun p => p.1 == k)).isSome

/-- One step of duplicate-preserving grouping: push `v` onto the list already
stored under `k`, or bind `k` to the one-element list if `k` is absent. -/
def lfAppendOne (m : LoaderFields) (k : String) (v : Json) : LoaderFields :=
  if lfContains m k then
    m.map (fun p => if p.1 == k then (p.1, p.2 ++ [v]) else p)
  else
    m ++ [(k, [v])]

/-- Map insertion on `LoaderFields` (models `HashMap::insert`: an existing
binding for `k` is replaced). -/
def lfInsert (m : LoaderFields) (k : String) (v : List Json) : LoaderFields :=
  if lfContains m k then
    m.map (fun p => if p.1 == k then (p.1, v) else p)
  else
    m ++ [(k, v)]

/-- Map lookup on a `RawLoaderFields` association list. -/
def rfGet (m : RawLoaderFields) (k : String) : Option Json :=
  (m.find? (fun p => p.1 == k)).map (fun p => p.2)

/-- Map insertion on `RawLoaderFields` (models `HashMap::insert`: an existing
binding for `k` is replaced). -/
def rfInsert (m : RawLoaderFields) (k : String) (v : Json) : RawLoaderFields :=
  if (m.find? (fun p => p.1 == k)).isSome then
    m.map (fun p => if p.1 == k then (p.1, v) else p)
  else
    m ++ [(k, v)]

/-- Modelled from the spec: `models::projects::from_duplicate_version_fields`
(declared outside src/) — flatten a typed field list into a field-name to
serialized-value-list map, a repeated field name appending to the existing
list rather than overwriting it. -/
def from_duplicate_version_fields (vfs : List VersionField) : LoaderFields :=
  vfs.foldl (fun acc vf => lfAppendOne acc vf.field_name vf.value.serialize_internal) []

/-- Lines 125–129 of `local_import.rs`: the raw `(field_name, serialized
value)` map handed to the legacy side mapper. Collecting the pairs into a
`HashMap` keeps, for a repeated field name, the value inserted last. -/
def unvectorized_loader_fields (vfs : List VersionField) : RawLoaderFields :=
  vfs.foldl (fun acc vf => rfInsert acc vf.field_name vf.value.serialize_internal) []

/-- The external collaborators `index_local` calls whose code is outside
src/. Modelled from the spec: the license registry (`spdx::license_id` data),
the legacy project-type derivation (`LegacyProject::get_project_type`), the
legacy side mapper (`v2_reroute::convert_side_types_v2`), and
`serde_json::to_value` applied to a side type (an `Option` result models the
`if let Ok(..)` checks at lines 185–190). -/
structure Externals where
  registry : List (String × Bool)
  get_project_type : List String → String × String
  convert_side_types_v2 : RawLoaderFields → Option String → LegacySideType × LegacySideType
  side_to_value : LegacySideType → Option Json

/-- Modelled from the spec: `spdx::license_id` — look a license token up in
the registry, yielding its entry (identifier and OSI-approved flag). -/
def license_id (registry : List (String × Bool)) (name : String) : Option (String × Bool) :=
  registry.find? (fun e => e.1 == name)

/-- Modelled from the spec: `LicenseId::is_osi_approved` — the registry's
OSI-approved flag of the entry. -/
def is_osi_approved (e : String × Bool) : Bool := e.2

/-- Models `str::split(' ')` on the underlying character list, written
structurally so that concrete runs evaluate inside the kernel. -/
def split_space_chars (acc : List Char) : List Char → List String
  | [] => [String.mk acc.reverse]
  | c :: cs =>
    if c = ' ' then String.mk acc.reverse :: split_space_chars [] cs
    else split_space_chars (c :: acc) cs

/-- Models `license.split(' ')` as the list of space-separated pieces (always
nonempty, matching the Rust iterator which always yields a first piece). -/
def split_space (s : String) : List String := split_space_chars [] s.data

/-- Modelled from the spec: document ids are string-serialized (the real
encoder, base62 over the id newtypes, is outside src/; the properties here
need only some fixed rendering, so decimal is used). -/
def id_to_string (n : Nat) : String := toString n

/-- Models `Vec::sort` on strings. `Vec::sort` is a stable comparison sort
and a stable sort's output is uniquely determined by the input order, so the
(stable) insertion sort produces the same list. -/
def vec_sort (l : List String) : List String := List.insertionSort (· ≤ ·) l

/-- Models `Vec::dedup`: remove consecutive repeated elements, keeping the
first element of each run. -/
def vec_dedup (l : List String) : List String := List.destutter (· ≠ ·) l

/-- Lines 141–152 of `local_import.rs` before sorting: fold over ALL version
ids of the project, extending with the loaders of every id that resolves in
the loaded version map; an unresolved id contributes nothing. -/
def collect_loaders (versions : Nat → Option QueryVersion) (ids : List Nat) : List String :=
  ids.foldl
    (fun ls vid =>
      match versions vid with
      | some ver => ls ++ ver.loaders
      | none => ls)
    []

/-- Lines 174–190 of `local_import.rs`: derive the legacy client/server side
pair from the raw loader fields and the legacy project type, and write each
side that serializes successfully into the loader-field map; a side whose
serialization fails is simply not inserted. -/
def insert_side_fields (ext : Externals) (unvectorized : RawLoaderFields)
    (project_types : List String) (loader_fields : LoaderFields) : LoaderFields :=
  let v2_og_project_type := (ext.get_project_type project_types).2
  let sides := ext.convert_side_types_v2 unvectorized (some v2_og_project_type)
  let loader_fields :=
    match ext.side_to_value sides.1 with
    | some client_side => lfInsert loader_fields "client_side" [client_side]
    | none => loader_fields
  let loader_fields :=
    match ext.side_to_value sides.2 with
    | some server_side => lfInsert loader_fields "server_side" [server_side]
    | none => loader_fields
  loader_fields

/-- Models `crate::search::UploadSearchProject`: the assembled search
document, with the field set and types used at lines 206–243. -/
structure UploadSearchProject where
  version_id : String
  project_id : String
  name : String
  summary : String
  categories : List String
  follows : Int
  downloads : Int
  icon_url : Option String
  author : String
  date_created : DateTime
  created_timestamp : Int
  date_modified : DateTime
  modified_timestamp : Int
  license : String
  slug : Option String
  project_types : List String
  gallery : List String
  featured_gallery : Option String
  display_categories : List String
  open_source : Bool
  color : Option Nat
  loader_fields : LoaderFields
  license_url : Option String
  monetization_status : Option String
  team_id : String
  organization_id : Option String
  thread_id : String
  versions : List String
  date_published : DateTime
  date_queued : Option DateTime
  status : String
  requested_status : Option String
  games : List String
  links : List (String × String)
  gallery_items : List GalleryItem
  loaders : List String
deriving DecidableEq

/-- The loop body of `index_local` (lines 102–245): assemble the search
document for one visible triple whose project and version both resolved. -/
def assemble_document (ext : Externals) (versions : Nat → Option QueryVersion)
    (owner_username : String) (m : QueryProject) (v : QueryVersion) : UploadSearchProject :=
  let version_id := v.inner.id
  let project_id := m.inner.id
  let team_id := m.inner.team_id
  let organization_id := m.inner.organization_id
  let thread_id := m.thread_id
  let all_version_ids := m.versions
  let additional_categories := m.additional_categories
  let categories := m.categories
  -- Uses version loaders, not project loaders.
  let categories := categories ++ v.loaders
  let display_categories := categories
  let categories := categories ++ additional_categories
  let version_fields := v.version_fields
  let unvectorized := unvectorized_loader_fields v.version_fields
  let loader_fields := from_duplicate_version_fields version_fields
  let license :=
    match split_space m.inner.license with
    | lic :: _ => lic
    | [] => m.inner.license
  let open_source :=
    match license_id ext.registry license with
    | some id => is_osi_approved id
    | none => false
  let loaders := collect_loaders versions all_version_ids
  let loaders := vec_sort loaders
  let loaders := vec_dedup loaders
  let mrpack_loaders :=
    ((lfGet loader_fields "mrpack_loaders").map
      (fun x => x.filterMap Json.as_str)).getD []
  let categories := categories ++ mrpack_loaders
  let categories :=
    if lfContains loader_fields "mrpack_loaders" then
      categories.filter (fun x => x != "mrpack")
    else categories
  let loader_fields := insert_side_fields ext unvectorized v.project_types loader_fields
  let gallery :=
    (m.gallery_items.filter (fun gi => !gi.featured)).map (fun gi => gi.image_url)
  let featured_gallery :=
    ((m.gallery_items.filter (fun gi => gi.featured)).map (fun gi => gi.image_url)).head?
  { version_id := id_to_string version_id
    project_id := id_to_string project_id
    name := m.inner.name
    summary := m.inner.summary
    categories := categories
    follows := m.inner.follows
    downloads := m.inner.downloads
    icon_url := m.inner.icon_url
    author := owner_username
    date_created := m.inner.approved.getD m.inner.published
    created_timestamp := (m.inner.approved.getD m.inner.published).timestamp
    date_modified := m.inner.updated
    modified_timestamp := m.inner.updated.timestamp
    license := license
    slug := m.inner.slug
    project_types := m.project_types
    gallery := gallery
    featured_gallery := featured_gallery
    display_categories := display_categories
    open_source := open_source
    color := m.inner.color
    loader_fields := loader_fields
    license_url := m.inner.license_url
    monetization_status := some m.inner.monetization_status
    team_id := id_to_string team_id
    organization_id := organization_id.map id_to_string
    thread_id := id_to_string thread_id
    versions := all_version_ids.map id_to_string
    date_published := m.inner.published
    date_queued := m.inner.queued
    status := m.inner.status
    requested_status := m.inner.requested_status
    games := m.games
    links := m.urls
    gallery_items := m.gallery_items
    loaders := loaders }

/-- Models `index_local` (lines 58–248) after the two batch loads: iterate
the visible `(version id, (project id, owner))` triples, skip (`continue`) a
triple whose project or version is absent from its loaded map, and otherwise
push the assembled document. The run itself always succeeds: the only
fallible steps are the upstream batch loads, which are inputs here. -/
def index_local (ext : Externals) (projects : Nat → Option QueryProject)
    (versions : Nat → Option QueryVersion) :
    List (Nat × Nat × String) → List UploadSearchProject
  | [] => []
  | (version_id, project_id, owner_username) :: rest =>
    match projects project_id with
    | none => index_local ext projects versions rest
    | some m =>
      match versions version_id with
      | none => index_local ext projects versions rest
      | some v =>
        assemble_document ext versions owner_username m v ::
          index_local ext projects versions rest

/-- A member row of `team_members` as the ownership query reads it. -/
structure TeamMember where
  team_id : Nat
  user_id : Nat
  is_owner : Bool
  accepted : Bool
deriving DecidableEq

/-- Modelled from the spec: one ownership path of the SQL query in
`get_all_ids` (lines 20–53) — the username of the accepted, owner-flagged
member of the given team, if any (the SQL engine executing the joins is
external, so the join semantics are modelled relationally). -/
def team_owner_username (members : List TeamMember) (users : Nat → Option String)
    (team : Nat) : Option String :=
  (members.find? (fun tm => tm.team_id == team && tm.is_owner && tm.accepted)).bind
    (fun tm => users tm.user_id)

/-- Modelled from the spec: the owner resolution of `get_all_ids` —
`COALESCE(u.username, ou.username)` over the project-team and
organization-team ownership paths, then `unwrap_or_default()`. `orgs` maps an
organization id to its team id. -/
def resolve_owner_username (members : List TeamMember) (users : Nat → Option String)
    (orgs : Nat → Option Nat) (project_team : Nat) (organization_id : Option Nat) : String :=
  let u := team_owner_username members users project_team
  let ou := (organization_id.bind orgs).bind (team_owner_username members users)
  ((u.orElse (fun _ => ou)).getD "")

/-! Concrete inputs used by the witness and counterexample theorems below: a
small registry, stand-in external collaborators, three projects (1: an
mrpack modpack under "MIT OR Apache-2.0" with a mixed gallery; 2: a fabric
mod under a proprietary license; 3: a modpack whose `mrpack_loaders` value is
the literal string "mrpack"), and their versions. -/

/-- A small SPDX registry fragment: identifier and OSI-approved flag. -/
def wRegistry : List (String × Bool) :=
  [("MIT", true), ("Apache-2.0", true), ("GPL-3.0-only", true), ("CC-BY-4.0", false)]

/-- Concrete external collaborators for the witness runs. -/
def wExt : Externals :=
  { registry := wRegistry
    get_project_type := fun pts => ("project", pts.headD "project")
    convert_side_types_v2 := fun _ _ => (.required, .optional)
    side_to_value := fun s =>
      match s with
      | .required => some (.str "required")
      | .optional => some (.str "optional")
      | .unsupported => some (.str "unsupported")
      | .unknown => some (.str "unknown") }

/-- A gallery item with only the url and featured flag of interest. -/
def wGallery (url : String) (feat : Bool) : GalleryItem :=
  { image_url := url, featured := feat, item_name := none, description := none,
    created := ⟨0⟩, ordering := 0 }

/-- Project 1: an mrpack modpack, license "MIT OR Apache-2.0", categories
["tech"], additional ["adventure"], gallery u1 (featured), u2, u3 (featured). -/
def wM1 : QueryProject :=
  { inner :=
      { id := 1, team_id := 10, organization_id := none, name := "Packy",
        summary := "a pack", downloads := 5, follows := 2, icon_url := none,
        license_url := none, license := "MIT OR Apache-2.0", slug := some "packy",
        status := "approved", requested_status := none, approved := some ⟨100⟩,
        published := ⟨50⟩, updated := ⟨200⟩, queued := none, color := none,
        monetization_status := "monetized" }
    categories := ["tech"]
    additional_categories := ["adventure"]
    versions := [1]
    project_types := ["modpack"]
    games := ["minecraft-java"]
    urls := []
    gallery_items := [wGallery "u1" true, wGallery "u2" false, wGallery "u3" true]
    thread_id := 70 }

/-- Version 1 of project 1: loader "mrpack", `mrpack_loaders` value "forge". -/
def wV1 : QueryVersion :=
  { inner := { id := 1, project_id := 1 }
    loaders := ["mrpack"]
    project_types := ["modpack"]
    version_fields := [⟨"mrpack_loaders", .enumeration "forge"⟩] }

/-- Project 2: a fabric mod under "Proprietary No Redistribution", no gallery. -/
def wM2 : QueryProject :=
  { inner :=
      { id := 2, team_id := 20, organization_id := some 5, name := "Moddy",
        summary := "a mod", downloads := 9, follows := 4, icon_url := none,
        license_url := none, license := "Proprietary No Redistribution",
        slug := none, status := "approved", requested_status := none,
        approved := none, published := ⟨60⟩, updated := ⟨61⟩, queued := none,
        color := some 7, monetization_status := "monetized" }
    categories := []
    additional_categories := []
    versions := [2]
    project_types := ["mod"]
    games := ["minecraft-java"]
    urls := []
    gallery_items := []
    thread_id := 71 }

/-- Version 2 of project 2: loader "fabric", no version fields. -/
def wV2 : QueryVersion :=
  { inner := { id := 2, project_id := 2 }
    loaders := ["fabric"]
    project_types := ["mod"]
    version_fields := [] }

/-- Project 3: a modpack whose only version carries the degenerate
`mrpack_loaders` value "mrpack". -/
def wM3 : QueryProject :=
  { inner :=
      { id := 3, team_id := 30, organization_id := none, name := "Edgy",
        summary := "edge case", downloads := 0, follows := 0, icon_url := none,
        license_url := none, license := "MIT", slug := none,
        status := "approved", requested_status := none, approved := none,
        published := ⟨1⟩, updated := ⟨2⟩, queued := none, color := none,
        monetization_status := "monetized" }
    categories := []
    additional_categories := []
    versions := [3]
    project_types := ["modpack"]
    games := ["minecraft-java"]
    urls := []
    gallery_items := []
    thread_id := 72 }

/-- Version 3 of project 3: loader "mrpack", `mrpack_loaders` value "mrpack". -/
def wV3 : QueryVersion :=
  { inner := { id := 3, project_id := 3 }
    loaders := ["mrpack"]
    project_types := ["modpack"]
    version_fields := [⟨"mrpack_loaders", .enumeration "mrpack"⟩] }

/-- The loaded project map of the witness runs. -/
def wP : Nat → Option QueryProject := fun i =>
  if i = 1 then some wM1 else if i = 2 then some wM2 else if i = 3 then some wM3 else none

/-- The loaded version map of the witness runs. -/
def wV : Nat → Option QueryVersion := fun i =>
  if i = 1 then some wV1 else if i = 2 then some wV2 else if i = 3 then some wV3 else none

/-- A typed field list with a duplicated field name, for the reconciliation
counterexample. -/
def wDupFields : List VersionField :=
  [⟨"env", .text "a"⟩, ⟨"env", .text "b"⟩]


/-! Helper lemmas about the association-list maps. -/

/-- A key-preserving rewrite of the entries commutes with keyed `find?`. -/
theorem find?_key_map {β : Type} (m : List (String × β)) (name : String)
    (g : String × β → String × β) (hg : ∀ p, (g p).1 = p.1) :
    (m.map g).find? (fun p => p.1 == name) = (m.find? (fun p => p.1 == name)).map g := by
  induction m with
  | nil => rfl
  | cons p t ih =>
    simp only [List.map_cons, List.find?_cons]
    rw [hg p]
    by_cases hp : (p.1 == name) = true
    · simp [hp]
    · simp only [Bool.not_eq_true] at hp
      simp [hp, ih]

/-- Appending a differently-keyed entry does not change a keyed `find?`. -/
theorem find?_append_single_ne {β : Type} (m : List (String × β)) (k name : String)
    (b : β) (hne : name ≠ k) :
    (m ++ [(k, b)]).find? (fun p => p.1 == name) = m.find? (fun p => p.1 == name) := by
  rw [List.find?_append]
  have hk : (k == name) = false := by
    rw [beq_eq_false_iff_ne]
    exact fun h => hne h.symm
  have h1 : ([(k, b)].find? (fun p => p.1 == name)) = none := by
    simp [List.find?, hk]
  rw [h1, Option.or_none]

/-- `lfContains` is definedness of `lfGet`. -/
theorem lfContains_eq_isSome (m : LoaderFields) (k : String) :
    lfContains m k = (lfGet m k).isSome := by
  unfold lfContains lfGet
  cases m.find? (fun p => p.1 == k) <;> rfl

/-- An absent key has no value. -/
theorem lfGet_eq_none_of_not_contains (m : LoaderFields) (k : String)
    (h : lfContains m k = false) : lfGet m k = none := by
  unfold lfContains at h
  unfold lfGet
  cases hf : m.find? (fun p => p.1 == k)
  · rfl
  · rw [hf] at h
    cases h

/-- `lfInsert` at one key does not change the value stored at another. -/
theorem lfGet_lfInsert_ne (m : LoaderFields) (k name : String) (v : List Json)
    (hne : name ≠ k) : lfGet (lfInsert m k v) name = lfGet m name := by
  unfold lfInsert lfGet
  by_cases hc : lfContains m k = true
  · rw [if_pos hc, find?_key_map _ _ _ (fun p => by by_cases h : (p.1 == k) = true <;> simp [h])]
    cases hf : m.find? (fun p => p.1 == name) with
    | none => rfl
    | some p =>
      have hp1 : p.1 = name := by simpa using List.find?_some hf
      simp [hp1, hne]
  · rw [if_neg hc, find?_append_single_ne _ _ _ _ hne]

/-- `lfInsert` at one key does not change the presence of another. -/
theorem lfContains_lfInsert_ne (m : LoaderFields) (k name : String) (v : List Json)
    (hne : name ≠ k) : lfContains (lfInsert m k v) name = lfContains m name := by
  rw [lfContains_eq_isSome, lfContains_eq_isSome, lfGet_lfInsert_ne m k name v hne]

/-- The value `lfAppendOne` leaves at each key: the extended list at its own
key, anything else untouched. -/
theorem lfGet_lfAppendOne (m : LoaderFields) (k name : String) (v : Json) :
    lfGet (lfAppendOne m k v) name
      = if name = k then some ((lfGet m k).getD [] ++ [v]) else lfGet m name := by
  by_cases hnk : name = k
  · subst hnk
    rw [if_pos rfl]
    unfold lfAppendOne lfContains lfGet
    by_cases hc : (m.find? (fun p => p.1 == name)).isSome = true
    · rw [if_pos hc, find?_key_map _ _ _ (fun p => by by_cases h : (p.1 == name) = true <;> simp [h])]
      cases hf : m.find? (fun p => p.1 == name) with
      | none =>
        rw [hf] at hc
        cases hc
      | some p =>
        have hp1 : p.1 = name := by simpa using List.find?_some hf
        simp [hp1]
    · rw [if_neg hc]
      have hm : m.find? (fun p => p.1 == name) = none := by
        cases hf : m.find? (fun p => p.1 == name)
        · rfl
        · rw [hf] at hc
          exact absurd rfl hc
      rw [List.find?_append, hm]
      simp [List.find?]
  · rw [if_neg hnk]
    unfold lfAppendOne lfContains lfGet
    by_cases hc : (m.find? (fun p => p.1 == k)).isSome = true
    · rw [if_pos hc, find?_key_map _ _ _ (fun p => by by_cases h : (p.1 == k) = true <;> simp [h])]
      cases hf : m.find? (fun p => p.1 == name) with
      | none => rfl
      | some p =>
        have hp1 : p.1 = name := by simpa using List.find?_some hf
        simp [hp1, hnk]
    · rw [if_neg hc, find?_append_single_ne _ _ _ _ hnk]

/-- The value `rfInsert` leaves at each key: the new value at its own key,
anything else untouched. -/
theorem rfGet_rfInsert (m : RawLoaderFields) (k name : String) (v : Json) :
    rfGet (rfInsert m k v) name = if name = k then some v else rfGet m name := by
  by_cases hnk : name = k
  · subst hnk
    rw [if_pos rfl]
    unfold rfInsert rfGet
    by_cases hc : (m.find? (fun p => p.1 == name)).isSome = true
    · rw [if_pos hc, find?_key_map _ _ _ (fun p => by by_cases h : (p.1 == name) = true <;> simp [h])]
      cases hf : m.find? (fun p => p.1 == name) with
      | none =>
        rw [hf] at hc
        cases hc
      | some p =>
        have hp1 : p.1 = name := by simpa using List.find?_some hf
        simp [hp1]
    · rw [if_neg hc]
      have hm : m.find? (fun p => p.1 == name) = none := by
        cases hf : m.find? (fun p => p.1 == name)
        · rfl
        · rw [hf] at hc
          exact absurd rfl hc
      rw [List.find?_append, hm]
      simp [List.find?]
  · rw [if_neg hnk]
    unfold rfInsert rfGet
    by_cases hc : (m.find? (fun p => p.1 == k)).isSome = true
    · rw [if_pos hc, find?_key_map _ _ _ (fun p => by by_cases h : (p.1 == k) = true <;> simp [h])]
      cases hf : m.find? (fun p => p.1 == name) with
      | none => rfl
      | some p =>
        have hp1 : p.1 = name := by simpa using List.find?_some hf
        simp [hp1, hnk]
    · rw [if_neg hc, find?_append_single_ne _ _ _ _ hnk]

/-! Projection lemmas: each field of the assembled document, read off the
definition. -/

theorem assemble_display_categories (ext : Externals) (versions : Nat → Option QueryVersion)
    (o : String) (m : QueryProject) (v : QueryVersion) :
    (assemble_document ext versions o m v).display_categories = m.categories ++ v.loaders := rfl

theorem assemble_categories (ext : Externals) (versions : Nat → Option QueryVersion)
    (o : String) (m : QueryProject) (v : QueryVersion) :
    (assemble_document ext versions o m v).categories
      = (let lf := from_duplicate_version_fields v.version_fields
         let mrs := ((lfGet lf "mrpack_loaders").map (fun x => x.filterMap Json.as_str)).getD []
         let cats := ((m.categories ++ v.loaders) ++ m.additional_categories) ++ mrs
         if lfContains lf "mrpack_loaders" then cats.filter (fun x => x != "mrpack")
         else cats) := rfl

theorem assemble_loader_fields (ext : Externals) (versions : Nat → Option QueryVersion)
    (o : String) (m : QueryProject) (v : QueryVersion) :
    (assemble_document ext versions o m v).loader_fields
      = insert_side_fields ext (unvectorized_loader_fields v.version_fields) v.project_types
          (from_duplicate_version_fields v.version_fields) := rfl

theorem assemble_license (ext : Externals) (versions : Nat → Option QueryVersion)
    (o : String) (m : QueryProject) (v : QueryVersion) :
    (assemble_document ext versions o m v).license
      = (match split_space m.inner.license with
         | lic :: _ => lic
         | [] => m.inner.license) := rfl

theorem assemble_open_source (ext : Externals) (versions : Nat → Option QueryVersion)
    (o : String) (m : QueryProject) (v : QueryVersion) :
    (assemble_document ext versions o m v).open_source
      = (match license_id ext.registry (assemble_document ext versions o m v).license with
         | some i => is_osi_approved i
         | none => false) := rfl

theorem assemble_loaders (ext : Externals) (versions : Nat → Option QueryVersion)
    (o : String) (m : QueryProject) (v : QueryVersion) :
    (assemble_document ext versions o m v).loaders
      = vec_dedup (vec_sort (collect_loaders versions m.versions)) := rfl

theorem assemble_gallery (ext : Externals) (versions : Nat → Option QueryVersion)
    (o : String) (m : QueryProject) (v : QueryVersion) :
    (assemble_document ext versions o m v).gallery
      = (m.gallery_items.filter (fun gi => !gi.featured)).map (fun gi => gi.image_url) := rfl

theorem assemble_featured_gallery (ext : Externals) (versions : Nat → Option QueryVersion)
    (o : String) (m : QueryProject) (v : QueryVersion) :
    (assemble_document ext versions o m v).featured_gallery
      = ((m.gallery_items.filter (fun gi => gi.featured)).map (fun gi => gi.image_url)).head? := rfl

theorem assemble_author (ext : Externals) (versions : Nat → Option QueryVersion)
    (o : String) (m : QueryProject) (v : QueryVersion) :
    (assemble_document ext versions o m v).author = o := rfl

theorem assemble_dates (ext : Externals) (versions : Nat → Option QueryVersion)
    (o : String) (m : QueryProject) (v : QueryVersion) :
    (assemble_document ext versions o m v).date_created = m.inner.approved.getD m.inner.published
    ∧ (assemble_document ext versions o m v).created_timestamp
        = (m.inner.approved.getD m.inner.published).timestamp
    ∧ (assemble_document ext versions o m v).date_modified = m.inner.updated
    ∧ (assemble_document ext versions o m v).modified_timestamp = m.inner.updated.timestamp :=
  ⟨rfl, rfl, rfl, rfl⟩

/-! The shape of a full run. -/

/-- `index_local` is a `filterMap` over the visible triples: a triple maps to
its assembled document when both sides resolve and to nothing otherwise. -/
theorem index_local_eq_filterMap (ext : Externals) (P : Nat → Option QueryProject)
    (V : Nat → Option QueryVersion) (vis : List (Nat × Nat × String)) :
    index_local ext P V vis
      = vis.filterMap (fun t =>
          match P t.2.1 with
          | none => none
          | some m =>
            match V t.1 with
            | none => none
            | some v => some (assemble_document ext V t.2.2 m v)) := by
  induction vis with
  | nil => rfl
  | cons hd tl ih =>
    obtain ⟨vid, pid, ow⟩ := hd
    cases hP : P pid <;> cases hV : V vid <;>
      simp [index_local, hP, hV, ih]

/-- A triple of the input whose two sides resolve contributes its assembled
document to the run's output. -/
theorem assemble_mem_index_local (ext : Externals) (P : Nat → Option QueryProject)
    (V : Nat → Option QueryVersion) (vis : List (Nat × Nat × String))
    (vid pid : Nat) (owner : String) (m : QueryProject) (v : QueryVersion)
    (hmem : (vid, pid, owner) ∈ vis) (hm : P pid = some m) (hv : V vid = some v) :
    assemble_document ext V owner m v ∈ index_local ext P V vis := by
  rw [index_local_eq_filterMap]
  exact List.mem_filterMap.mpr ⟨(vid, pid, owner), hmem, by simp [hm, hv]⟩

/-- C1: for a visible triple at the head of the worklist, the run produces
exactly one document for it when both its project id and its version id
resolve in the loaded maps, and exactly zero when either is missing — the
triple is skipped and the run still returns its (total) result for the rest. -/
theorem c1_one_document_iff_both_resolve (ext : Externals) (P : Nat → Option QueryProject)
    (V : Nat → Option QueryVersion) (version_id project_id : Nat) (owner : String)
    (rest : List (Nat × Nat × String)) :
    (index_local ext P V ((version_id, project_id, owner) :: rest)).length
      = (if (P project_id).isSome && (V version_id).isSome then 1 else 0)
        + (index_local ext P V rest).length := by
  cases hP : P project_id <;> cases hV : V version_id <;>
    simp [index_local, hP, hV, Nat.add_comm]

/-- C9: the assembly pass is deterministic over an unchanged snapshot — two
runs over the same loaded maps whose visible triples agree up to iteration
order (the `HashMap` iteration order is arbitrary) produce the same documents
up to order, hence identical sets. -/
theorem c9_assembly_deterministic (ext : Externals) (P : Nat → Option QueryProject)
    (V : Nat → Option QueryVersion) (vis₁ vis₂ : List (Nat × Nat × String))
    (h : vis₁.Perm vis₂) :
    (index_local ext P V vis₁).Perm (index_local ext P V vis₂) := by
  rw [index_local_eq_filterMap, index_local_eq_filterMap]
  exact h.filterMap _

/-- Witness for C9 at a concrete two-triple snapshot. -/
theorem c9_witness :
    ([(1, 1, "alice"), (2, 2, "bob")] : List (Nat × Nat × String)).Perm
        [(2, 2, "bob"), (1, 1, "alice")]
    ∧ (index_local wExt wP wV [(1, 1, "alice"), (2, 2, "bob")]).Perm
        (index_local wExt wP wV [(2, 2, "bob"), (1, 1, "alice")]) :=
  ⟨List.Perm.swap _ _ _,
   c9_assembly_deterministic wExt wP wV _ _ (List.Perm.swap _ _ _)⟩

/-- C6: owner resolution is first-match-wins over the two ownership paths —
the project team's accepted owner if present, else the organization team's
accepted owner, else the empty string (never an error) — and the produced
document's `author` is exactly the (possibly empty) owner string of its
triple. -/
theorem c6_owner_resolution (members : List TeamMember) (users : Nat → Option String)
    (orgs : Nat → Option Nat) (project_team : Nat) (organization_id : Option Nat)
    (ext : Externals) (versions : Nat → Option QueryVersion) (owner : String)
    (m : QueryProject) (v : QueryVersion) :
    resolve_owner_username members users orgs project_team organization_id
      = (match team_owner_username members users project_team with
         | some uname => uname
         | none =>
           match (organization_id.bind orgs).bind (team_owner_username members users) with
           | some uname => uname
           | none => "")
    ∧ (assemble_document ext versions owner m v).author = owner := by
  constructor
  · unfold resolve_owner_username
    cases team_owner_username members users project_team <;>
      cases (organization_id.bind orgs).bind (team_owner_username members users) <;>
        rfl
  · rfl

/-- C10: a produced document's creation date and timestamp come from the
project's approval time when present, else its publication time, and its
modification date and timestamp always come from the project's updated time. -/
theorem c10_creation_modification_times (ext : Externals) (P : Nat → Option QueryProject)
    (V : Nat → Option QueryVersion) (vis : List (Nat × Nat × String))
    (vid pid : Nat) (owner : String) (m : QueryProject) (v : QueryVersion)
    (hmem : (vid, pid, owner) ∈ vis) (hm : P pid = some m) (hv : V vid = some v) :
    assemble_document ext V owner m v ∈ index_local ext P V vis
    ∧ (assemble_document ext V owner m v).date_created
        = (match m.inner.approved with
           | some t => t
           | none => m.inner.published)
    ∧ (assemble_document ext V owner m v).created_timestamp
        = (match m.inner.approved with
           | some t => t
           | none => m.inner.published).timestamp
    ∧ (assemble_document ext V owner m v).date_modified = m.inner.updated
    ∧ (assemble_document ext V owner m v).modified_timestamp = m.inner.updated.timestamp := by
  refine ⟨assemble_mem_index_local ext P V vis vid pid owner m v hmem hm hv, ?_, ?_, rfl, rfl⟩
  · rw [(assemble_dates ext V owner m v).1]
    cases m.inner.approved <;> rfl
  · rw [(assemble_dates ext V owner m v).2.1]
    cases m.inner.approved <;> rfl

/-- Witness for C10 at project 1 (approved at 100, published at 50,
updated at 200). -/
theorem c10_witness :
    assemble_document wExt wV "alice" wM1 wV1 ∈ index_local wExt wP wV [(1, 1, "alice")]
    ∧ (assemble_document wExt wV "alice" wM1 wV1).date_created
        = (match wM1.inner.approved with
           | some t => t
           | none => wM1.inner.published)
    ∧ (assemble_document wExt wV "alice" wM1 wV1).created_timestamp
        = (match wM1.inner.approved with
           | some t => t
           | none => wM1.inner.published).timestamp
    ∧ (assemble_document wExt wV "alice" wM1 wV1).date_modified = wM1.inner.updated
    ∧ (assemble_document wExt wV "alice" wM1 wV1).modified_timestamp
        = wM1.inner.updated.timestamp :=
  c10_creation_modification_times wExt wP wV [(1, 1, "alice")] 1 1 "alice" wM1 wV1
    (by decide) rfl rfl

/-- C7: a produced document's gallery is exactly the image URLs of the
project's non-featured gallery items (in order), and its featured gallery is
the first featured item's URL when any featured item exists and is absent
otherwise; featured items are excluded from the non-featured list. -/
theorem c7_gallery_split (ext : Externals) (P : Nat → Option QueryProject)
    (V : Nat → Option QueryVersion) (vis : List (Nat × Nat × String))
    (vid pid : Nat) (owner : String) (m : QueryProject) (v : QueryVersion)
    (hmem : (vid, pid, owner) ∈ vis) (hm : P pid = some m) (hv : V vid = some v) :
    assemble_document ext V owner m v ∈ index_local ext P V vis
    ∧ (assemble_document ext V owner m v).gallery
        = (m.gallery_items.filter (fun gi => !gi.featured)).map (fun gi => gi.image_url)
    ∧ (∀ u, u ∈ (assemble_document ext V owner m v).gallery
        ↔ ∃ gi, gi ∈ m.gallery_items ∧ gi.featured = false ∧ gi.image_url = u)
    ∧ (assemble_document ext V owner m v).featured_gallery
        = (match m.gallery_items.filter (fun gi => gi.featured) with
           | [] => none
           | gi :: _ => some gi.image_url) := by
  refine ⟨assemble_mem_index_local ext P V vis vid pid owner m v hmem hm hv, rfl, ?_, ?_⟩
  · intro u
    rw [assemble_gallery]
    simp [List.mem_map, List.mem_filter, and_assoc]
  · rw [assemble_featured_gallery]
    cases m.gallery_items.filter (fun gi => gi.featured) <;> rfl

/-- Witness for C7 at project 1, whose gallery has featured items u1 and u3
around the non-featured u2: the featured gallery is u1 only and the gallery
list is u2 only. -/
theorem c7_witness :
    ((assemble_document wExt wV "alice" wM1 wV1).gallery = ["u2"]
      ∧ (assemble_document wExt wV "alice" wM1 wV1).featured_gallery = some "u1")
    ∧ (assemble_document wExt wV "alice" wM1 wV1 ∈ index_local wExt wP wV [(1, 1, "alice")]
      ∧ (assemble_document wExt wV "alice" wM1 wV1).gallery
          = (wM1.gallery_items.filter (fun gi => !gi.featured)).map (fun gi => gi.image_url)
      ∧ (∀ u, u ∈ (assemble_document wExt wV "alice" wM1 wV1).gallery
          ↔ ∃ gi, gi ∈ wM1.gallery_items ∧ gi.featured = false ∧ gi.image_url = u)
      ∧ (assemble_document wExt wV "alice" wM1 wV1).featured_gallery
          = (match wM1.gallery_items.filter (fun gi => gi.featured) with
             | [] => none
             | gi :: _ => some gi.image_url)) :=
  ⟨⟨by decide, by decide⟩,
   c7_gallery_split wExt wP wV [(1, 1, "alice")] 1 1 "alice" wM1 wV1 (by decide) rfl rfl⟩

/-- C5: a produced document stores as `license` the first space-delimited
token of the project's license string, and `open_source` is true exactly when
that token is found in the license registry with the OSI-approved flag set
(empty or unrecognized tokens give false, never an error); concretely,
"MIT OR Apache-2.0" yields license "MIT" with `open_source` true and
"Proprietary No Redistribution" yields license "Proprietary" with
`open_source` false. -/
theorem c5_license_classification (ext : Externals) (P : Nat → Option QueryProject)
    (V : Nat → Option QueryVersion) (vis : List (Nat × Nat × String))
    (vid pid : Nat) (owner : String) (m : QueryProject) (v : QueryVersion)
    (hmem : (vid, pid, owner) ∈ vis) (hm : P pid = some m) (hv : V vid = some v) :
    assemble_document ext V owner m v ∈ index_local ext P V vis
    ∧ (assemble_document ext V owner m v).license
        = (split_space m.inner.license).headD m.inner.license
    ∧ ((assemble_document ext V owner m v).open_source = true
        ↔ ∃ e, license_id ext.registry (assemble_document ext V owner m v).license = some e
            ∧ is_osi_approved e = true)
    ∧ (index_local wExt wP wV [(1, 1, "alice"), (2, 2, "bob")]).map
        (fun d => (d.license, d.open_source)) = [("MIT", true), ("Proprietary", false)] := by
  refine ⟨assemble_mem_index_local ext P V vis vid pid owner m v hmem hm hv, ?_, ?_, by decide⟩
  · rw [assemble_license]
    cases split_space m.inner.license <;> rfl
  · rw [assemble_open_source]
    cases hlid : license_id ext.registry (assemble_document ext V owner m v).license <;>
      simp

/-- Witness for C5 at project 1 ("MIT OR Apache-2.0"). -/
theorem c5_witness :
    assemble_document wExt wV "alice" wM1 wV1 ∈ index_local wExt wP wV [(1, 1, "alice")]
    ∧ (assemble_document wExt wV "alice" wM1 wV1).license
        = (split_space wM1.inner.license).headD wM1.inner.license
    ∧ ((assemble_document wExt wV "alice" wM1 wV1).open_source = true
        ↔ ∃ e, license_id wExt.registry (assemble_document wExt wV "alice" wM1 wV1).license = some e
            ∧ is_osi_approved e = true)
    ∧ (index_local wExt wP wV [(1, 1, "alice"), (2, 2, "bob")]).map
        (fun d => (d.license, d.open_source)) = [("MIT", true), ("Proprietary", false)] :=
  c5_license_classification wExt wP wV [(1, 1, "alice")] 1 1 "alice" wM1 wV1
    (by decide) rfl rfl

/-! Lemmas about `Vec::sort` + `Vec::dedup` and the loader union fold. -/

theorem sorted_vec_sort (l : List String) : List.Sorted (· ≤ ·) (vec_sort l) :=
  List.sorted_insertionSort _ l

theorem mem_vec_sort (l : List String) (x : String) : x ∈ vec_sort l ↔ x ∈ l :=
  (List.perm_insertionSort _ l).mem_iff

/-- Deduplication only drops repeats: every element of the input survives. -/
theorem mem_destutter'_ne (x : String) :
    ∀ (l : List String) (a : String), x ∈ a :: l → x ∈ List.destutter' (· ≠ ·) a l := by
  intro l
  induction l with
  | nil =>
    intro a hx
    rw [List.mem_singleton] at hx
    simp [List.destutter', hx]
  | cons b t ih =>
    intro a hx
    rw [List.destutter'_cons]
    by_cases hab : a ≠ b
    · rw [if_pos hab]
      rcases List.mem_cons.mp hx with h | hx2
      · exact h ▸ List.mem_cons_self _ _
      · exact List.mem_cons_of_mem _ (ih b hx2)
    · rw [if_neg hab]
      push_neg at hab
      refine ih a ?_
      rcases List.mem_cons.mp hx with h | hx2
      · exact h ▸ List.mem_cons_self _ _
      · rcases List.mem_cons.mp hx2 with h | hx3
        · rw [h, ← hab]
          exact List.mem_cons_self _ _
        · exact List.mem_cons_of_mem _ hx3

theorem mem_vec_dedup (l : List String) (x : String) : x ∈ vec_dedup l ↔ x ∈ l := by
  unfold vec_dedup
  constructor
  · intro h
    exact (List.destutter_sublist _ l).subset h
  · intro h
    cases l with
    | nil => cases h
    | cons a t =>
      rw [List.destutter_cons']
      exact mem_destutter'_ne x t a h

theorem sorted_vec_dedup (l : List String) (h : List.Sorted (· ≤ ·) l) :
    List.Sorted (· ≤ ·) (vec_dedup l) :=
  List.Pairwise.sublist (List.destutter_sublist _ l) h

/-- On a weakly sorted list, consecutive distinctness upgrades to consecutive
strict increase. -/
theorem chain'_lt_of_sorted_of_ne :
    ∀ (l : List String), List.Sorted (· ≤ ·) l → l.Chain' (· ≠ ·) → l.Chain' (· < ·) := by
  intro l
  induction l with
  | nil => intro _ _; simp
  | cons a t ih =>
    intro hs hne
    cases t with
    | nil => simp
    | cons b t2 =>
      rw [List.chain'_cons] at hne ⊢
      exact ⟨lt_of_le_of_ne (List.rel_of_sorted_cons hs b (List.mem_cons_self b t2)) hne.1,
        ih hs.of_cons hne.2⟩

/-- Deduplicating a sorted list leaves no duplicates at all. -/
theorem nodup_vec_dedup (l : List String) (h : List.Sorted (· ≤ ·) l) :
    (vec_dedup l).Nodup := by
  have hch : (vec_dedup l).Chain' (· ≠ ·) := List.destutter_is_chain' _ l
  have hs2 : List.Sorted (· ≤ ·) (vec_dedup l) := sorted_vec_dedup l h
  have hlt : (vec_dedup l).Chain' (· < ·) := chain'_lt_of_sorted_of_ne _ hs2 hch
  have hp : (vec_dedup l).Pairwise (· < ·) := List.chain'_iff_pairwise.mp hlt
  exact hp.imp ne_of_lt

/-- Membership in the loader-collecting fold, generalized over the
accumulator. -/
theorem mem_collect_loaders_aux (V : Nat → Option QueryVersion) :
    ∀ (ids : List Nat) (init : List String) (x : String),
      x ∈ ids.foldl
            (fun ls vid =>
              match V vid with
              | some ver => ls ++ ver.loaders
              | none => ls)
            init
        ↔ x ∈ init ∨ ∃ vid ver, vid ∈ ids ∧ V vid = some ver ∧ x ∈ ver.loaders := by
  intro ids
  induction ids with
  | nil =>
    intro init x
    simp
  | cons hd tl ih =>
    intro init x
    rw [List.foldl_cons]
    cases hV : V hd with
    | none =>
      rw [ih]
      constructor
      · rintro (hi | ⟨vid, ver, hmem, hsome, hx⟩)
        · exact Or.inl hi
        · exact Or.inr ⟨vid, ver, List.mem_cons_of_mem _ hmem, hsome, hx⟩
      · rintro (hi | ⟨vid, ver, hmem, hsome, hx⟩)
        · exact Or.inl hi
        · rcases List.mem_cons.mp hmem with h | hmem2
          · rw [h, hV] at hsome
            cases hsome
          · exact Or.inr ⟨vid, ver, hmem2, hsome, hx⟩
    | some ver0 =>
      rw [ih]
      constructor
      · rintro (hi | ⟨vid, ver, hmem, hsome, hx⟩)
        · rcases List.mem_append.mp hi with h1 | h2
          · exact Or.inl h1
          · exact Or.inr ⟨hd, ver0, List.mem_cons_self _ _, hV, h2⟩
        · exact Or.inr ⟨vid, ver, List.mem_cons_of_mem _ hmem, hsome, hx⟩
      · rintro (hi | ⟨vid, ver, hmem, hsome, hx⟩)
        · exact Or.inl (List.mem_append.mpr (Or.inl hi))
        · rcases List.mem_cons.mp hmem with h | hmem2
          · rw [h, hV] at hsome
            cases hsome
            exact Or.inl (List.mem_append.mpr (Or.inr hx))
          · exact Or.inr ⟨vid, ver, hmem2, hsome, hx⟩

/-- Membership in the collected loaders: contributed by some resolving
version id of the list. -/
theorem mem_collect_loaders (V : Nat → Option QueryVersion) (ids : List Nat) (x : String) :
    x ∈ collect_loaders V ids
      ↔ ∃ vid ver, vid ∈ ids ∧ V vid = some ver ∧ x ∈ ver.loaders := by
  unfold collect_loaders
  rw [mem_collect_loaders_aux]
  simp

/-- C4: a produced document's top-level `loaders` list is sorted and
duplicate-free, and contains exactly the loaders of the version ids of the
project's version list that resolve in the loaded version map — an id absent
from that map contributes nothing (and causes no error). -/
theorem c4_aggregate_loaders (ext : Externals) (P : Nat → Option QueryProject)
    (V : Nat → Option QueryVersion) (vis : List (Nat × Nat × String))
    (vid pid : Nat) (owner : String) (m : QueryProject) (v : QueryVersion)
    (hmem : (vid, pid, owner) ∈ vis) (hm : P pid = some m) (hv : V vid = some v) :
    assemble_document ext V owner m v ∈ index_local ext P V vis
    ∧ List.Sorted (· ≤ ·) (assemble_document ext V owner m v).loaders
    ∧ (assemble_document ext V owner m v).loaders.Nodup
    ∧ ∀ x, x ∈ (assemble_document ext V owner m v).loaders
        ↔ ∃ vid2 ver, vid2 ∈ m.versions ∧ V vid2 = some ver ∧ x ∈ ver.loaders := by
  refine ⟨assemble_mem_index_local ext P V vis vid pid owner m v hmem hm hv, ?_, ?_, ?_⟩
  · rw [assemble_loaders]
    exact sorted_vec_dedup _ (sorted_vec_sort _)
  · rw [assemble_loaders]
    exact nodup_vec_dedup _ (sorted_vec_sort _)
  · intro x
    rw [assemble_loaders, mem_vec_dedup, mem_vec_sort, mem_collect_loaders]

/-- Witness for C4 at project 1 (version list [1], loader "mrpack"). -/
theorem c4_witness :
    assemble_document wExt wV "alice" wM1 wV1 ∈ index_local wExt wP wV [(1, 1, "alice")]
    ∧ List.Sorted (· ≤ ·) (assemble_document wExt wV "alice" wM1 wV1).loaders
    ∧ (assemble_document wExt wV "alice" wM1 wV1).loaders.Nodup
    ∧ ∀ x, x ∈ (assemble_document wExt wV "alice" wM1 wV1).loaders
        ↔ ∃ vid2 ver, vid2 ∈ wM1.versions ∧ wV vid2 = some ver ∧ x ∈ ver.loaders :=
  c4_aggregate_loaders wExt wP wV [(1, 1, "alice")] 1 1 "alice" wM1 wV1 (by decide) rfl rfl

/-- C2 (amended): a produced document's `display_categories` is exactly the
base categories followed by the version's loaders (captured before
additional categories), and `categories` is base ++ version loaders ++
additional categories ++ mrpack injection — except that, when the
`mrpack_loaders` key is present, every occurrence of the literal category
"mrpack" is removed from the concatenation. -/
theorem c2_categories_layout (ext : Externals) (P : Nat → Option QueryProject)
    (V : Nat → Option QueryVersion) (vis : List (Nat × Nat × String))
    (vid pid : Nat) (owner : String) (m : QueryProject) (v : QueryVersion)
    (hmem : (vid, pid, owner) ∈ vis) (hm : P pid = some m) (hv : V vid = some v) :
    assemble_document ext V owner m v ∈ index_local ext P V vis
    ∧ (assemble_document ext V owner m v).display_categories = m.categories ++ v.loaders
    ∧ (lfContains (from_duplicate_version_fields v.version_fields) "mrpack_loaders" = false →
        (assemble_document ext V owner m v).categories
          = m.categories ++ v.loaders ++ m.additional_categories)
    ∧ (lfContains (from_duplicate_version_fields v.version_fields) "mrpack_loaders" = true →
        (assemble_document ext V owner m v).categories
          = (m.categories ++ v.loaders ++ m.additional_categories
              ++ ((lfGet (from_duplicate_version_fields v.version_fields) "mrpack_loaders").map
                    (fun x => x.filterMap Json.as_str)).getD []).filter
              (fun c => c != "mrpack")) := by
  refine ⟨assemble_mem_index_local ext P V vis vid pid owner m v hmem hm hv, rfl, ?_, ?_⟩
  · intro h
    rw [assemble_categories]
    simp [h, lfGet_eq_none_of_not_contains _ _ h, List.append_assoc]
  · intro h
    rw [assemble_categories]
    simp [h, List.append_assoc]

/-- C2 counterexample: for the modpack project 1 (base ["tech"], version
loaders ["mrpack"], additional ["adventure"], mrpack injection ["forge"]),
the produced categories are ["tech", "adventure", "forge"]: the claimed
in-order containment of base ++ loaders ++ additional ++ injection fails,
because the loader category "mrpack" was removed by the injection rule. -/
theorem c2_counterexample :
    (index_local wExt wP wV [(1, 1, "alice")]).map (fun d => d.categories)
        = [["tech", "adventure", "forge"]]
    ∧ wM1.categories ++ wV1.loaders ++ wM1.additional_categories
        ++ ((lfGet (from_duplicate_version_fields wV1.version_fields) "mrpack_loaders").map
              (fun x => x.filterMap Json.as_str)).getD []
        = ["tech", "mrpack", "adventure", "forge"]
    ∧ ¬ (["tech", "mrpack", "adventure", "forge"].Sublist ["tech", "adventure", "forge"]) :=
  ⟨by decide, by decide, by decide⟩

/-- Witness for the amended C2 at project 1 (mrpack key present). -/
theorem c2_witness :
    assemble_document wExt wV "alice" wM1 wV1 ∈ index_local wExt wP wV [(1, 1, "alice")]
    ∧ (assemble_document wExt wV "alice" wM1 wV1).display_categories
        = wM1.categories ++ wV1.loaders
    ∧ (lfContains (from_duplicate_version_fields wV1.version_fields) "mrpack_loaders" = false →
        (assemble_document wExt wV "alice" wM1 wV1).categories
          = wM1.categories ++ wV1.loaders ++ wM1.additional_categories)
    ∧ (lfContains (from_duplicate_version_fields wV1.version_fields) "mrpack_loaders" = true →
        (assemble_document wExt wV "alice" wM1 wV1).categories
          = (wM1.categories ++ wV1.loaders ++ wM1.additional_categories
              ++ ((lfGet (from_duplicate_version_fields wV1.version_fields) "mrpack_loaders").map
                    (fun x => x.filterMap Json.as_str)).getD []).filter
              (fun c => c != "mrpack")) :=
  c2_categories_layout wExt wP wV [(1, 1, "alice")] 1 1 "alice" wM1 wV1 (by decide) rfl rfl

/-- The client/server side insertions never touch the `mrpack_loaders` key. -/
theorem mrpack_key_insert_side_fields (ext : Externals) (u : RawLoaderFields)
    (pts : List String) (lf : LoaderFields) :
    lfGet (insert_side_fields ext u pts lf) "mrpack_loaders" = lfGet lf "mrpack_loaders"
    ∧ lfContains (insert_side_fields ext u pts lf) "mrpack_loaders"
        = lfContains lf "mrpack_loaders" := by
  simp only [insert_side_fields]
  cases h1 : ext.side_to_value (ext.convert_side_types_v2 u (some (ext.get_project_type pts).2)).1 with
  | none =>
    cases h2 : ext.side_to_value (ext.convert_side_types_v2 u (some (ext.get_project_type pts).2)).2 with
    | none => exact ⟨rfl, rfl⟩
    | some s =>
      exact ⟨lfGet_lfInsert_ne _ _ _ _ (by decide), lfContains_lfInsert_ne _ _ _ _ (by decide)⟩
  | some c =>
    cases h2 : ext.side_to_value (ext.convert_side_types_v2 u (some (ext.get_project_type pts).2)).2 with
    | none =>
      exact ⟨lfGet_lfInsert_ne _ _ _ _ (by decide), lfContains_lfInsert_ne _ _ _ _ (by decide)⟩
    | some s =>
      constructor
      · rw [lfGet_lfInsert_ne _ _ _ _ (by decide), lfGet_lfInsert_ne _ _ _ _ (by decide)]
      · rw [lfContains_lfInsert_ne _ _ _ _ (by decide), lfContains_lfInsert_ne _ _ _ _ (by decide)]

/-- C3 (amended): when a produced document's loader fields contain the
`mrpack_loaders` key, the literal category "mrpack" is absent from the final
categories, and every string value under that key other than the literal
"mrpack" itself appears in the final categories. -/
theorem c3_mrpack_category_rules (ext : Externals) (P : Nat → Option QueryProject)
    (V : Nat → Option QueryVersion) (vis : List (Nat × Nat × String))
    (vid pid : Nat) (owner : String) (m : QueryProject) (v : QueryVersion)
    (hmem : (vid, pid, owner) ∈ vis) (hm : P pid = some m) (hv : V vid = some v)
    (hkey : lfContains (assemble_document ext V owner m v).loader_fields "mrpack_loaders" = true) :
    assemble_document ext V owner m v ∈ index_local ext P V vis
    ∧ "mrpack" ∉ (assemble_document ext V owner m v).categories
    ∧ ∀ j ∈ (lfGet (assemble_document ext V owner m v).loader_fields "mrpack_loaders").getD [],
        ∀ s, j.as_str = some s → s ≠ "mrpack"
          → s ∈ (assemble_document ext V owner m v).categories := by
  have hpres := mrpack_key_insert_side_fields ext (unvectorized_loader_fields v.version_fields)
    v.project_types (from_duplicate_version_fields v.version_fields)
  rw [assemble_loader_fields, hpres.2] at hkey
  refine ⟨assemble_mem_index_local ext P V vis vid pid owner m v hmem hm hv, ?_, ?_⟩
  · rw [assemble_categories]
    simp [hkey, List.mem_filter]
  · intro j hj s hs hsne
    rw [assemble_loader_fields, hpres.1] at hj
    rw [assemble_categories]
    simp only [hkey, if_true]
    rw [List.mem_filter]
    constructor
    · apply List.mem_append.mpr
      refine Or.inr ?_
      cases hget : lfGet (from_duplicate_version_fields v.version_fields) "mrpack_loaders" with
      | none =>
        rw [hget] at hj
        cases hj
      | some l =>
        rw [hget] at hj
        simp only [hget, Option.map_some', Option.getD_some]
        exact List.mem_filterMap.mpr ⟨j, hj, hs⟩
    · simpa using hsne

/-- C3 counterexample: project 3's version stores the literal string
"mrpack" as an `mrpack_loaders` value; the produced document keeps it among
the loader-field values but its final categories are empty, so this string
value does not appear in the categories. -/
theorem c3_counterexample :
    (index_local wExt wP wV [(3, 3, "carol")]).map
        (fun d => (d.categories, (lfGet d.loader_fields "mrpack_loaders").getD []))
      = [(([] : List String), [Json.str "mrpack"])]
    ∧ (Json.str "mrpack").as_str = some "mrpack"
    ∧ "mrpack" ∉ ([] : List String) :=
  ⟨by decide, rfl, by decide⟩

/-- Witness for the amended C3 at project 1 (value "forge" is injected and
survives into the final categories). -/
theorem c3_witness :
    lfContains (assemble_document wExt wV "alice" wM1 wV1).loader_fields "mrpack_loaders" = true
    ∧ (assemble_document wExt wV "alice" wM1 wV1 ∈ index_local wExt wP wV [(1, 1, "alice")]
      ∧ "mrpack" ∉ (assemble_document wExt wV "alice" wM1 wV1).categories
      ∧ ∀ j ∈ (lfGet (assemble_document wExt wV "alice" wM1 wV1).loader_fields
            "mrpack_loaders").getD [],
          ∀ s, j.as_str = some s → s ≠ "mrpack"
            → s ∈ (assemble_document wExt wV "alice" wM1 wV1).categories) :=
  ⟨by decide,
   c3_mrpack_category_rules wExt wP wV [(1, 1, "alice")] 1 1 "alice" wM1 wV1
     (by decide) rfl rfl (by decide)⟩

/-- The grouped value list built by the duplicate-preserving fold, generalized
over the starting map: all serialized values of same-named fields, appended
in order after whatever the starting map already held. -/
theorem lfGet_from_duplicate_aux (name : String) :
    ∀ (vfs : List VersionField) (m : LoaderFields),
      lfGet (vfs.foldl (fun acc vf => lfAppendOne acc vf.field_name vf.value.serialize_internal) m)
          name
        = (match (vfs.filter (fun vf => vf.field_name == name)).map
              (fun vf => vf.value.serialize_internal) with
           | [] => lfGet m name
           | l => some ((lfGet m name).getD [] ++ l)) := by
  intro vfs
  induction vfs with
  | nil => intro m; rfl
  | cons vf tl ih =>
    intro m
    rw [List.foldl_cons, ih]
    by_cases h : (vf.field_name == name) = true
    · have heq : vf.field_name = name := by simpa using h
      rw [List.filter_cons, if_pos h, List.map_cons, heq,
        lfGet_lfAppendOne m name name vf.value.serialize_internal, if_pos rfl]
      cases hrest : (tl.filter (fun vf => vf.field_name == name)).map
          (fun vf => vf.value.serialize_internal) with
      | nil => rfl
      | cons r rs => simp [List.append_assoc]
    · have hne2 : vf.field_name ≠ name := by simpa using h
      rw [List.filter_cons, if_neg h,
        lfGet_lfAppendOne m vf.field_name name vf.value.serialize_internal,
        if_neg (fun hh => hne2 hh.symm)]

/-- The raw value left by the overwrite fold, generalized over the starting
map: the last serialized value of a same-named field, else whatever the
starting map held. -/
theorem rfGet_unvectorized_aux (name : String) :
    ∀ (vfs : List VersionField) (m : RawLoaderFields),
      rfGet (vfs.foldl (fun acc vf => rfInsert acc vf.field_name vf.value.serialize_internal) m)
          name
        = (match ((vfs.filter (fun vf => vf.field_name == name)).map
              (fun vf => vf.value.serialize_internal)).getLast? with
           | some x => some x
           | none => rfGet m name) := by
  intro vfs
  induction vfs with
  | nil => intro m; rfl
  | cons vf tl ih =>
    intro m
    rw [List.foldl_cons, ih]
    by_cases h : (vf.field_name == name) = true
    · have heq : vf.field_name = name := by simpa using h
      rw [List.filter_cons, if_pos h, List.map_cons, heq,
        rfGet_rfInsert m name name vf.value.serialize_internal, if_pos rfl]
      cases hrest : (tl.filter (fun vf => vf.field_name == name)).map
          (fun vf => vf.value.serialize_internal) with
      | nil => rfl
      | cons r rs =>
        rw [List.getLast?_cons_cons]
        cases hgl : (r :: rs).getLast? with
        | none =>
          exact absurd hgl (by simp)
        | some x => rfl
    · have hne2 : vf.field_name ≠ name := by simpa using h
      rw [List.filter_cons, if_neg h,
        rfGet_rfInsert m vf.field_name name vf.value.serialize_internal,
        if_neg (fun hh => hne2 hh.symm)]

/-- C8 (amended): per field name, the generic mapping groups ALL serialized
values of same-named typed fields, in order (duplicates append); the raw
mapping handed to the legacy side derivation keeps only the LAST same-named
field's serialized value (later duplicates overwrite earlier ones). -/
theorem c8_field_reconciliation (vfs : List VersionField) (name : String) :
    lfGet (from_duplicate_version_fields vfs) name
      = (match (vfs.filter (fun vf => vf.field_name == name)).map
            (fun vf => vf.value.serialize_internal) with
         | [] => none
         | l => some l)
    ∧ rfGet (unvectorized_loader_fields vfs) name
      = ((vfs.filter (fun vf => vf.field_name == name)).map
            (fun vf => vf.value.serialize_internal)).getLast? := by
  constructor
  · unfold from_duplicate_version_fields
    rw [lfGet_from_duplicate_aux]
    cases (vfs.filter (fun vf => vf.field_name == name)).map
        (fun vf => vf.value.serialize_internal) with
    | nil => rfl
    | cons r rs => simp [lfGet]
  · unfold unvectorized_loader_fields
    rw [rfGet_unvectorized_aux]
    cases ((vfs.filter (fun vf => vf.field_name == name)).map
        (fun vf => vf.value.serialize_internal)).getLast? with
    | none => rfl
    | some x => rfl

/-- C8 counterexample: with two typed fields both named "env" (values "a"
then "b"), the generic mapping appends both values, but the raw mapping
keeps only the last — so it is not the case that every duplicate field
contributes its value to its key in each mapping. -/
theorem c8_counterexample :
    lfGet (from_duplicate_version_fields wDupFields) "env"
        = some [Json.str "a", Json.str "b"]
    ∧ rfGet (unvectorized_loader_fields wDupFields) "env" = some (Json.str "b")
    ∧ ¬ ∀ vf ∈ wDupFields,
        rfGet (unvectorized_loader_fields wDupFields) vf.field_name
          = some vf.value.serialize_internal :=
  ⟨by decide, by decide, by decide⟩
